import Mathlib

/-!
Verification development for the presentation-generation pipeline of the
`ai_research_to_slides` repository.  JavaScript strings are modelled as
`List Char` (all inputs of interest are ASCII); JavaScript numbers that hold
byte counts are modelled as `Int`/`Nat`; the floating-point colour arithmetic
of the template registry is modelled by exact rationals.
-/

namespace AiSlides

/-- JavaScript whitespace characters (the ASCII subset relevant here:
space, tab, newline, carriage return, vertical tab, form feed), as tested by
`String.prototype.trim` and `\s` in the source's regular expressions. -/
def isJsWs (c : Char) : Bool :=
  c == ' ' || c == '\n' || c == '\t' || c == '\r' || c == '\x0b' || c == '\x0c'

/-- Model of JavaScript `String.prototype.trim`: drop whitespace from both
ends of the string. -/
def jsTrim (l : List Char) : List Char :=
  (l.dropWhile isJsWs).rdropWhile isJsWs

theorem dropWhile_eq_cons_head_false {α : Type} {p : α → Bool} {u : List α} {c : α}
    {r : List α} (h : u.dropWhile p = c :: r) : p c = false := by
  induction u with
  | nil => simp at h
  | cons a t ih =>
    rw [List.dropWhile_cons] at h
    by_cases hpa : p a = true
    · rw [if_pos hpa] at h
      exact ih h
    · rw [if_neg hpa] at h
      cases h
      simpa using hpa

theorem jsTrim_head_false {l : List Char} {c : Char} {r : List Char}
    (h : jsTrim l = c :: r) : isJsWs c = false := by
  obtain ⟨t, ht⟩ := List.rdropWhile_prefix isJsWs (l.dropWhile isJsWs)
  rw [jsTrim] at h
  rw [h] at ht
  have hu : l.dropWhile isJsWs = c :: (r ++ t) := by
    rw [← ht]
    simp
  exact dropWhile_eq_cons_head_false hu

theorem dropWhile_jsTrim (l : List Char) :
    (jsTrim l).dropWhile isJsWs = jsTrim l := by
  rcases h : jsTrim l with _ | ⟨c, r⟩
  · simp
  · rw [List.dropWhile_cons, if_neg (by simp [jsTrim_head_false h])]

theorem jsTrim_idem (l : List Char) : jsTrim (jsTrim l) = jsTrim l := by
  conv_lhs => rw [jsTrim, dropWhile_jsTrim]
  rw [jsTrim, List.rdropWhile_idempotent]

/-! ## Outline normalization

Model of the cleaning pass in `generateOutline` (composables, lines 239-258):

```js
if (cleanedResult.trim().startsWith('```markdown')) {
  cleanedResult = cleanedResult.replace(/^\s*```markdown\s*\n/, '')
} else if (cleanedResult.trim().startsWith('```') && !cleanedResult.trim().startsWith('```{')) {
  cleanedResult = cleanedResult.replace(/^\s*```\s*\n/, '')
}
if (cleanedResult.trim().endsWith('```')) {
  cleanedResult = cleanedResult.replace(/\n\s*```\s*$/, '')
}
presentationOutline.value = cleanedResult.trim()
```
-/

/-- Index of the last newline in a list of characters, if any. -/
def lastNLIdx : List Char → Option Nat
  | [] => none
  | c :: rest =>
    match lastNLIdx rest with
    | some k => some (k + 1)
    | none => if c = '\n' then some 0 else none

/-- Model of `replace(/^\s*TAG\s*\n/, '')` for a literal `TAG` that starts with
a non-whitespace character: skip the leading whitespace run, require `TAG`,
then consume the following whitespace run up to (and including) its last
newline.  If the pattern does not match, the string is returned unchanged. -/
def stripLeadTag (tag : List Char) (s : List Char) : List Char :=
  let w := s.takeWhile isJsWs
  let rest := s.drop w.length
  if tag.isPrefixOf rest then
    let after := rest.drop tag.length
    let r := after.takeWhile isJsWs
    match lastNLIdx r with
    | some k => after.drop (k + 1)
    | none => s
  else s

/-- Does the regex `\n\s*```\s*$` match the whole remaining text `t`? -/
def trailFenceMatch (t : List Char) : Bool :=
  match t with
  | '\n' :: u =>
    let v := u.dropWhile isJsWs
    ("```".data).isPrefixOf v && (v.drop 3).all isJsWs
  | _ => false

/-- Position of the first match of `\n\s*```\s*$` (which necessarily extends
to the end of the string), if any. -/
def trailFenceIdx : List Char → Option Nat
  | [] => none
  | c :: rest =>
    if trailFenceMatch (c :: rest) then some 0
    else (trailFenceIdx rest).map (· + 1)

/-- Model of `replace(/\n\s*```\s*$/, '')`: remove the first (hence final)
trailing-fence match, or return the string unchanged if there is none. -/
def stripTrailFence (s : List Char) : List Char :=
  match trailFenceIdx s with
  | some i => s.take i
  | none => s

/-- The leading-fence-stripping step of the cleaning pass (the
`if`/`else if` on `cleanedResult.trim().startsWith(...)`). -/
def normalizeLead (s : List Char) : List Char :=
  if ("```markdown".data).isPrefixOf (jsTrim s) then
    stripLeadTag ("```markdown".data) s
  else if ("```".data).isPrefixOf (jsTrim s) &&
      !(("```\x7b".data).isPrefixOf (jsTrim s)) then
    stripLeadTag ("```".data) s
  else s

/-- The trailing-fence-stripping step (the `if` on `endsWith('```')`). -/
def normalizeTrail (s : List Char) : List Char :=
  if ("```".data).isSuffixOf (jsTrim s) then stripTrailFence s else s

/-- The whole normalization pass of `generateOutline`: leading strip,
trailing strip, final `trim()`. -/
def normalizeOutline (s : List Char) : List Char :=
  jsTrim (normalizeTrail (normalizeLead s))

/-! ## Outline-generation state (useResearch / composables `generateOutline`)

The composable keeps `researchResults`, `presentationOutline`, the outline
history and an error slot as reactive state.  `generateOutline` resets the
outline refs, fails fast when `researchResults` is empty, and otherwise
issues the query; on a non-null result it stores the normalized outline.
The network call is modelled by its result (`none` = the client returned
`null` after an error). -/

structure ResearchState where
  researchResults : List Char
  presentationOutline : List Char
  outlineHistory : List (List Char)
  error : Option (List Char)
  isOutlineComplete : Bool
  isGeneratingOutline : Bool
  deriving Repr, DecidableEq

/-- Model of `generateOutline` (composables, lines 182-310).  Returns the
post-call state together with a flag recording whether the query to the
language-model client was issued at all. -/
def generateOutlineModel (queryResult : Option (List Char)) (st : ResearchState) :
    ResearchState × Bool :=
  let st1 := { st with
    isOutlineComplete := false
    isGeneratingOutline := true
    presentationOutline := ([] : List Char) }
  if st1.researchResults = [] then
    ({ st1 with
        error := some ("No research results available to generate an outline".data)
        isGeneratingOutline := false }, false)
  else
    match queryResult with
    | none => (st1, true)
    | some result =>
      ({ st1 with
          presentationOutline := normalizeOutline result
          outlineHistory := st1.outlineHistory ++ [normalizeOutline result]
          isOutlineComplete := true }, true)

/-! ## Streaming query client (useOpenRouter `queryDeepSeek`, streaming mode)

The streaming loop reads raw chunks, splits each into newline-separated
lines, keeps the non-blank ones, and for each line with the `data: ` marker
takes its payload: the literal `[DONE]` is skipped with `continue`;
otherwise a non-blank payload is JSON-parsed and the delta content (if any,
and non-empty) is appended to the running total and handed to `onChunk`.
JSON parsing and field extraction are modelled by a parameter
`parse : List Char → Option (List Char)`: `none` models a `JSON.parse`
exception (the frame is skipped), `some c` models a successful parse whose
`choices?.[0]?.delta?.content || ''` evaluates to `c`. -/

structure StreamAcc where
  full : List Char
  emitted : List (List Char)
  deriving Repr, DecidableEq

/-- Processing of one non-blank line of the event stream. -/
def processStreamLine (parse : List Char → Option (List Char))
    (st : StreamAcc) (line : List Char) : StreamAcc :=
  if ("data: ".data).isPrefixOf line then
    let data := line.drop 6
    if data = "[DONE]".data then st
    else if jsTrim data ≠ [] then
      match parse data with
      | none => st
      | some content =>
        if content ≠ [] then
          { full := st.full ++ content, emitted := st.emitted ++ [content] }
        else st
    else st
  else st

/-- The non-blank lines of one decoded network chunk
(`chunk.split('\n').filter(line => line.trim() !== '')`). -/
def chunkLines (chunk : List Char) : List (List Char) :=
  (chunk.splitOn '\n').filter (fun line => jsTrim line ≠ [])

/-- The whole streaming read loop over a list of decoded chunks, starting
from an empty accumulator; `full` is the value the function returns and
`emitted` is the ordered list of `onChunk` deliveries. -/
def streamRun (parse : List Char → Option (List Char))
    (chunks : List (List Char)) : StreamAcc :=
  chunks.foldl (fun st chunk => (chunkLines chunk).foldl (processStreamLine parse) st)
    { full := [], emitted := [] }

/-- The delta contributed by a single line, written out as the specification
reads: a well-formed `data: ` frame that is not the `[DONE]` sentinel
contributes its parsed content, every other line contributes nothing. -/
def lineDelta (parse : List Char → Option (List Char)) (line : List Char) : List Char :=
  if ("data: ".data).isPrefixOf line then
    let data := line.drop 6
    if data = "[DONE]".data then []
    else if jsTrim data ≠ [] then
      match parse data with
      | none => []
      | some content => content
    else []
  else []

/-- Partial model of `JSON.parse` composed with the
`choices?.[0]?.delta?.content || ''` extraction, for frames of the exact
shape produced by the event stream with an unescaped content string:
`\x7b"choices":[\x7b"delta":\x7b"content":"..."\x7d\x7d]\x7d`.  Frames of
any other shape are reported as parse failures. -/
def parseFrame (s : List Char) : Option (List Char) :=
  let pre := "\x7b\"choices\":[\x7b\"delta\":\x7b\"content\":\"".data
  let suf := "\"\x7d\x7d]\x7d".data
  if pre.isPrefixOf s then
    let rest := s.drop pre.length
    if suf.isSuffixOf rest && suf.length ≤ rest.length &&
        (rest.take (rest.length - suf.length)).all
          (fun c => !(c == '"') && !(c == '\\')) then
      some (rest.take (rest.length - suf.length))
    else none
  else none

/-! ## R Markdown chunk processing (useMarp `processRMarkdownChunks`)

`processRMarkdownChunks` finds every R code chunk of the markdown with
`/```\x7br.*?\x7d\n([\s\S]*?)\n```/g`, classifies each as a table or a plot
chunk by keyword, posts it to the `/api/rmarkdown` endpoint, throws on an
error response, and otherwise replaces the chunk text with the returned
result.  Its caller `convertMarkdownToSlides` catches the throw and falls
back to the original (trimmed) markdown.  The endpoint is modelled by a
function from chunk type and code to `Except error result`. -/

/-- Scan for the lazy `.*?\x7d\n` of the chunk-opening regex: the number of
characters consumed before the first `\x7d` that is immediately followed by
a newline, with no newline in between (`.` does not match a newline). -/
def scanToBraceNL : List Char → Option Nat
  | '\x7d' :: '\n' :: _ => some 0
  | '\n' :: _ => none
  | _ :: rest => (scanToBraceNL rest).map (· + 1)
  | [] => none

/-- Index of the first occurrence of `pat` in `l`, if any. -/
def firstIdxOf (pat : List Char) : List Char → Option Nat
  | [] => if pat.isEmpty then some 0 else none
  | c :: rest =>
    if pat.isPrefixOf (c :: rest) then some 0
    else (firstIdxOf pat rest).map (· + 1)

/-- Attempt to match `/```\x7br.*?\x7d\n([\s\S]*?)\n```/` at the start of
`t`.  On success returns the length of the whole match and the captured
code body. -/
def matchRChunkAt (t : List Char) : Option (Nat × List Char) :=
  if ("```\x7br".data).isPrefixOf t then
    match scanToBraceNL (t.drop 5) with
    | none => none
    | some k =>
      match firstIdxOf ("\n```".data) (t.drop (7 + k)) with
      | none => none
      | some m => some (11 + k + m, (t.drop (7 + k)).take m)
  else none

/-- Fuel-bounded worker for `findRChunks`; the fuel only serves as a
termination measure and never runs out when it starts at the length of the
scanned string. -/
def findRChunksF : Nat → List Char → List (List Char × List Char)
  | 0, _ => []
  | _, [] => []
  | fuel + 1, c :: rest =>
    match matchRChunkAt (c :: rest) with
    | some (n, code) => ((c :: rest).take n, code) :: findRChunksF fuel (rest.drop (n - 1))
    | none => findRChunksF fuel rest

/-- All matches of the chunk regex in document order
(`[...markdown.matchAll(rCodeChunkRegex)]`): search left to right, resuming
after the end of each match.  Each element is the full matched text paired
with the captured code body. -/
def findRChunks (l : List Char) : List (List Char × List Char) :=
  findRChunksF l.length l

/-- Model of JavaScript `String.prototype.includes`. -/
def jsIncludes (s pat : List Char) : Bool :=
  (firstIdxOf pat s).isSome

/-- Chunk classification: the kind requested from the endpoint
(`'table'` when the code calls a table constructor, else `'svg'`). -/
inductive RChunkType where
  | table
  | svg
  deriving Repr, DecidableEq

/-- `type` selection of `processRMarkdownChunks`. -/
def classifyRChunk (rCode : List Char) : RChunkType :=
  if jsIncludes rCode ("kable(".data) || jsIncludes rCode ("data.frame(".data) ||
      jsIncludes rCode ("matrix(".data) || jsIncludes rCode ("tibble(".data) then
    RChunkType.table
  else RChunkType.svg

/-- First-occurrence string replacement, as JavaScript
`String.prototype.replace` with a string pattern. -/
def replaceFirst (s pat repl : List Char) : List Char :=
  match firstIdxOf pat s with
  | some i => s.take i ++ repl ++ s.drop (i + pat.length)
  | none => s

/-- The per-chunk loop of `processRMarkdownChunks`: the matches were
computed up front on the original markdown; each successful execution
replaces the first occurrence of the full matched text in the working
document, and any error response aborts the whole function with a throw. -/
def processRChunksLoop (runtime : RChunkType → List Char → Except (List Char) (List Char)) :
    List (List Char × List Char) → List Char → Except (List Char) (List Char)
  | [], pm => Except.ok pm
  | (full, code) :: rest, pm =>
    match runtime (classifyRChunk code) code with
    | Except.error e => Except.error e
    | Except.ok res => processRChunksLoop runtime rest (replaceFirst pm full res)

/-- Model of `processRMarkdownChunks`. -/
def processRMarkdownChunks (runtime : RChunkType → List Char → Except (List Char) (List Char))
    (markdown : List Char) : Except (List Char) (List Char) :=
  processRChunksLoop runtime (findRChunks markdown) markdown

/-- Model of the R-processing stage of `convertMarkdownToSlides` (lines
130-149): when the markdown contains `` ```\x7br `` the chunks are processed
and the result trimmed; a thrown error is caught and the original markdown
(trimmed) is used instead, so compilation continues. -/
def convertStageR (runtime : RChunkType → List Char → Except (List Char) (List Char))
    (markdown : List Char) : List Char :=
  if jsIncludes markdown ("```\x7br".data) then
    match processRMarkdownChunks runtime markdown with
    | Except.ok processed => jsTrim processed
    | Except.error _ => jsTrim markdown
  else jsTrim markdown

/-! ## Content cache (storageUtils)

`storageUtils` keys the cached artifacts by a content hash in a JSON index
`\x7b items, totalSize \x7d` persisted in `localStorage`.  A JavaScript
object whose keys always equal the `hash` field of the stored record is
modelled as a list of records with pairwise distinct hashes, kept in key
insertion order (`Object.values` enumeration order); `totalSize` is a
JavaScript number, modelled as `Int`. -/

/-- Maximum cache size in bytes (5 MB). -/
def MAX_CACHE_SIZE : Int := 5 * 1024 * 1024

/-- One record of `index.items`. -/
structure IndexItem where
  id : List Char
  hash : List Char
  timestamp : Nat
  size : Nat
  deriving Repr, DecidableEq

/-- The storage index. -/
structure StorageIndex where
  items : List IndexItem
  totalSize : Int
  deriving Repr, DecidableEq

/-- `index.items[hash] = v`: replace the record in place when the key
exists, otherwise append it. -/
def upsertItem (v : IndexItem) : List IndexItem → List IndexItem
  | [] => [v]
  | it :: rest =>
    if it.hash = v.hash then v :: rest else it :: upsertItem v rest

/-- `delete index.items[h]`. -/
def deleteItem (h : List Char) (items : List IndexItem) : List IndexItem :=
  items.filter (fun it => it.hash ≠ h)

/-- Ascending last-access order on index records. -/
def tsLE (a b : IndexItem) : Prop := a.timestamp ≤ b.timestamp

instance : DecidableRel tsLE := fun a b => Nat.decLe a.timestamp b.timestamp

instance : IsTotal IndexItem tsLE := ⟨fun a b => Nat.le_total a.timestamp b.timestamp⟩

instance : IsTrans IndexItem tsLE := ⟨fun _ _ _ h1 h2 => Nat.le_trans h1 h2⟩

/-- `Object.values(index.items).sort((a, b) => a.timestamp - b.timestamp)`:
the records in ascending last-access order. -/
def sortByTimestamp (items : List IndexItem) : List IndexItem :=
  items.insertionSort tsLE

/-- The eviction loop of `storeContent`: while the new content does not fit
and candidates remain, remove the oldest-accessed candidate from the index
and subtract its size. -/
def evictWhile (size : Nat) : List IndexItem → StorageIndex → StorageIndex
  | [], idx => idx
  | oldest :: cand, idx =>
    if idx.totalSize + size > MAX_CACHE_SIZE then
      evictWhile size cand
        { items := deleteItem oldest.hash idx.items
          totalSize := idx.totalSize - oldest.size }
    else idx

/-- Model of `storeContent` (storageUtils lines 98-161): make room if the
new content would overflow the cache, then write the record under its hash
and add its size to the running total.  The generated id and the `Date.now()`
timestamp are passed in as parameters. -/
def storeContent (id : List Char) (now : Nat) (hash : List Char) (size : Nat)
    (idx : StorageIndex) : StorageIndex :=
  let idx1 :=
    if idx.totalSize + size > MAX_CACHE_SIZE then
      evictWhile size (sortByTimestamp idx.items) idx
    else idx
  { items := upsertItem { id := id, hash := hash, timestamp := now, size := size } idx1.items
    totalSize := idx1.totalSize + size }

/-- Model of the index effect of `getContentByHash` (storageUtils lines
168-199) when the content blob is present: refresh the record's
last-access timestamp to `Date.now()`; a miss leaves the index unchanged. -/
def getContentTouch (now : Nat) (hash : List Char) (idx : StorageIndex) : StorageIndex :=
  { idx with
    items := idx.items.map (fun it =>
      if it.hash = hash then { it with timestamp := now } else it) }

/-- Sum of the sizes recorded in a list of index records. -/
def sizeSum (items : List IndexItem) : Int :=
  (items.map (fun it => (it.size : Int))).sum

/-- A well-formed index: the recorded total is the sum of the record sizes
and the keys are pairwise distinct (both hold for every index JavaScript
can build through an error-free sequence of distinct-hash stores). -/
def WellFormedIndex (idx : StorageIndex) : Prop :=
  idx.totalSize = sizeSum idx.items ∧ (idx.items.map IndexItem.hash).Nodup

/-! ## Content hash (storageUtils `generateHash`) -/

/-- Coercion of an integer to a signed 32-bit value (`hash & hash` /
`hash << 5` in JavaScript apply `ToInt32`). -/
def toInt32 (n : Int) : Int :=
  (n + 2 ^ 31) % 2 ^ 32 - 2 ^ 31

/-- One step of the hash loop:
`hash = ((hash << 5) - hash) + char` followed by `hash = hash & hash`. -/
def hashStep (h : Int) (c : Char) : Int :=
  toInt32 (toInt32 (h * 32) - h + c.toNat)

/-- Hexadecimal rendering of a nonnegative integer, as
`Number.prototype.toString(16)`. -/
def natToHex (n : Nat) : List Char :=
  (Nat.toDigits 16 n)

/-- `Number.prototype.toString(16)` for a 32-bit signed value. -/
def intToHex (n : Int) : List Char :=
  if n < 0 then '-' :: natToHex n.natAbs else natToHex n.toNat

/-- Model of `generateHash` (storageUtils lines 40-49). -/
def generateHash (content : List Char) : List Char :=
  intToHex (content.foldl hashStep 0)

/-! ## Template registry (marpUtils)

The registry is a fixed list of seven templates.  The repository holds two
revisions of `getRandomTemplates`: one samples the full `TEMPLATES` array
with a Fisher-Yates shuffle after explicit `count` guards, the other
shuffles only the contrast-filtered templates with a random comparator and
slices.  Floating-point colour arithmetic is modelled by exact rationals
(the contrast values of all seven templates are far from the 4.5
threshold, so the model and IEEE doubles agree on every comparison made). -/

structure MarpTemplate where
  name : List Char
  theme : List Char
  backgroundColor : List Char
  textColor : List Char
  accentColor : List Char
  headingFont : List Char
  bodyFont : List Char
  deriving Repr, DecidableEq, Inhabited

/-- The predefined template catalog. -/
def TEMPLATES : List MarpTemplate :=
  [ { name := "Professional Blue".data, theme := "default".data,
      backgroundColor := "#ffffff".data, textColor := "#2c3e50".data,
      accentColor := "#3498db".data, headingFont := "Arial, sans-serif".data,
      bodyFont := "Helvetica, sans-serif".data },
    { name := "Dark Tech".data, theme := "gaia".data,
      backgroundColor := "#1a1a2e".data, textColor := "#e6e6e6".data,
      accentColor := "#0f3460".data, headingFont := "Courier New, monospace".data,
      bodyFont := "Courier New, monospace".data },
    { name := "Warm Sunset".data, theme := "uncover".data,
      backgroundColor := "#fff5e6".data, textColor := "#5c3a21".data,
      accentColor := "#e67e22".data, headingFont := "Georgia, serif".data,
      bodyFont := "Palatino, serif".data },
    { name := "Clean Green".data, theme := "default".data,
      backgroundColor := "#f0fff0".data, textColor := "#1e3f1e".data,
      accentColor := "#2e8b57".data, headingFont := "Verdana, sans-serif".data,
      bodyFont := "Arial, sans-serif".data },
    { name := "Bold Contrast".data, theme := "gaia".data,
      backgroundColor := "#000000".data, textColor := "#ffffff".data,
      accentColor := "#ff5722".data, headingFont := "Impact, sans-serif".data,
      bodyFont := "Arial Black, sans-serif".data },
    { name := "Soft Pastel".data, theme := "uncover".data,
      backgroundColor := "#f8f4ff".data, textColor := "#4a4453".data,
      accentColor := "#b399d4".data, headingFont := "Comic Sans MS, cursive".data,
      bodyFont := "Comic Sans MS, cursive".data },
    { name := "Ocean Depth".data, theme := "default".data,
      backgroundColor := "#e6f7ff".data, textColor := "#003366".data,
      accentColor := "#0066cc".data, headingFont := "Trebuchet MS, sans-serif".data,
      bodyFont := "Tahoma, sans-serif".data } ]

/-- Value of a hexadecimal digit (the regex of `hexToRgb` is
case-insensitive). -/
def hexDigitVal (c : Char) : Option Nat :=
  if '0' ≤ c ∧ c ≤ '9' then some (c.toNat - '0'.toNat)
  else if 'a' ≤ c ∧ c ≤ 'f' then some (c.toNat - 'a'.toNat + 10)
  else if 'A' ≤ c ∧ c ≤ 'F' then some (c.toNat - 'A'.toNat + 10)
  else none

/-- Model of `hexToRgb`: parse `#?rrggbb`, fall back to black when the
regex does not match. -/
def hexToRgb (hex : List Char) : Nat × Nat × Nat :=
  let body := match hex with
    | '#' :: rest => rest
    | other => other
  match body with
  | [a, b, c, d, e, f] =>
    match hexDigitVal a, hexDigitVal b, hexDigitVal c,
        hexDigitVal d, hexDigitVal e, hexDigitVal f with
    | some va, some vb, some vc, some vd, some ve, some vf =>
      (va * 16 + vb, vc * 16 + vd, ve * 16 + vf)
    | _, _, _, _, _, _ => (0, 0, 0)
  | _ => (0, 0, 0)

/-- The luminance expression of `calculateContrast`:
`(0.2126 * r + 0.7152 * g + 0.0722 * b) / 255`, in exact rationals. -/
def luminance (rgb : Nat × Nat × Nat) : ℚ :=
  ((2126 : ℚ) / 10000 * rgb.1 + (7152 : ℚ) / 10000 * rgb.2.1 +
    (722 : ℚ) / 10000 * rgb.2.2) / 255

/-- Model of `calculateContrast`. -/
def calculateContrast (hex1 hex2 : List Char) : ℚ :=
  let lum1 := luminance (hexToRgb hex1)
  let lum2 := luminance (hexToRgb hex2)
  let lighter := max lum1 lum2
  let darker := min lum1 lum2
  (lighter + 5 / 100) / (darker + 5 / 100)

/-- Integer numerator of the luminance: `luminance rgb = lumNum rgb / 2550000`. -/
def lumNum (rgb : Nat × Nat × Nat) : Nat :=
  2126 * rgb.1 + 7152 * rgb.2.1 + 722 * rgb.2.2

/-- Integer form of the contrast test `4.5 ≤ calculateContrast hex1 hex2`,
equivalent to the source's rational comparison (`contrastGE45_iff`) but
evaluable by the kernel. -/
def contrastGE45 (hex1 hex2 : List Char) : Bool :=
  let L1 := lumNum (hexToRgb hex1)
  let L2 := lumNum (hexToRgb hex2)
  9 * (min L1 L2 + 127500) ≤ 2 * (max L1 L2 + 127500)

theorem luminance_eq (rgb : Nat × Nat × Nat) :
    luminance rgb = (lumNum rgb : ℚ) / 2550000 := by
  unfold luminance lumNum
  rw [div_eq_div_iff (by norm_num) (by norm_num)]
  push_cast
  ring

set_option maxRecDepth 2048 in
theorem contrast_nat_iff (L1 L2 : Nat) :
    (9 * (min L1 L2 + 127500) ≤ 2 * (max L1 L2 + 127500)) ↔
      (45 : ℚ) / 10 * (min ((L1 : ℚ) / 2550000) ((L2 : ℚ) / 2550000) + 5 / 100) ≤
        max ((L1 : ℚ) / 2550000) ((L2 : ℚ) / 2550000) + 5 / 100 := by
  rcases Nat.le_total L1 L2 with h | h
  · have hq : (L1 : ℚ) / 2550000 ≤ (L2 : ℚ) / 2550000 := by
      have : (L1 : ℚ) ≤ (L2 : ℚ) := Nat.cast_le.mpr h
      linarith
    rw [min_eq_left h, max_eq_right h, min_eq_left hq, max_eq_right hq]
    constructor
    · intro hle
      have hc : ((9 * (L1 + 127500) : ℕ) : ℚ) ≤ ((2 * (L2 + 127500) : ℕ) : ℚ) :=
        Nat.cast_le.mpr hle
      push_cast at hc
      linarith
    · intro hle
      have hc : ((9 * (L1 + 127500) : ℕ) : ℚ) ≤ ((2 * (L2 + 127500) : ℕ) : ℚ) := by
        push_cast
        linarith
      exact Nat.cast_le.mp hc
  · have hq : (L2 : ℚ) / 2550000 ≤ (L1 : ℚ) / 2550000 := by
      have : (L2 : ℚ) ≤ (L1 : ℚ) := Nat.cast_le.mpr h
      linarith
    rw [min_eq_right h, max_eq_left h, min_eq_right hq, max_eq_left hq]
    constructor
    · intro hle
      have hc : ((9 * (L2 + 127500) : ℕ) : ℚ) ≤ ((2 * (L1 + 127500) : ℕ) : ℚ) :=
        Nat.cast_le.mpr hle
      push_cast at hc
      linarith
    · intro hle
      have hc : ((9 * (L2 + 127500) : ℕ) : ℚ) ≤ ((2 * (L1 + 127500) : ℕ) : ℚ) := by
        push_cast
        linarith
      exact Nat.cast_le.mp hc

theorem contrastGE45_iff (hex1 hex2 : List Char) :
    contrastGE45 hex1 hex2 = true ↔
      (45 : ℚ) / 10 ≤ calculateContrast hex1 hex2 := by
  simp only [contrastGE45, calculateContrast, luminance_eq, decide_eq_true_eq]
  have hden : (0 : ℚ) <
      min ((lumNum (hexToRgb hex1) : ℚ) / 2550000)
        ((lumNum (hexToRgb hex2) : ℚ) / 2550000) + 5 / 100 := by
    have h1 : (0 : ℚ) ≤ (lumNum (hexToRgb hex1) : ℚ) / 2550000 := by positivity
    have h2 : (0 : ℚ) ≤ (lumNum (hexToRgb hex2) : ℚ) / 2550000 := by positivity
    have := le_min h1 h2
    linarith
  rw [le_div_iff₀ hden]
  exact contrast_nat_iff _ _

/-- Model of `getReadableTemplates`: the templates whose
background/text contrast reaches 4.5. -/
def getReadableTemplates : List MarpTemplate :=
  TEMPLATES.filter (fun t => contrastGE45 t.backgroundColor t.textColor)

/-- `l.set` based swap of two positions, as the destructuring swap
`[a[i], a[j]] = [a[j], a[i]]`. -/
def swapAt (l : List MarpTemplate) (i j : Nat) : List MarpTemplate :=
  (l.set i (l.getD j default)).set j (l.getD i default)

/-- The Fisher-Yates loop of the registry revision of
`getRandomTemplates`, with `Math.floor(Math.random() * (i + 1))` modelled
by `rand i % (i + 1)` for a caller-chosen function `rand` (every sequence
of in-range draws is realized by some `rand`). -/
def fisherYatesLoop (rand : Nat → Nat) (l : List MarpTemplate) : Nat → List MarpTemplate
  | 0 => l
  | i + 1 => fisherYatesLoop rand (swapAt l (i + 1) (rand (i + 1) % (i + 2))) i

/-- Model of the registry (part_020) revision of `getRandomTemplates`
(lines 128-148): guard `count ≤ 0`, return the whole catalog when `count`
reaches its size, otherwise shuffle a copy and take the first `count`. -/
def getRandomTemplatesRegistry (rand : Nat → Nat) (count : Int) : List MarpTemplate :=
  if count ≤ 0 then []
  else if count ≥ (TEMPLATES.length : Int) then TEMPLATES
  else
    (fisherYatesLoop rand TEMPLATES (TEMPLATES.length - 1)).take count.toNat

/-- JavaScript `Array.prototype.slice(0, end)` with its negative-index
convention. -/
def jsSliceToEnd (e : Int) (l : List MarpTemplate) : List MarpTemplate :=
  if e < 0 then l.take (((l.length : Int) + e).toNat)
  else l.take e.toNat

/-- Model of the `utils/marpUtils.ts` revision of `getRandomTemplates`
(lines 128-132): shuffle the contrast-filtered templates with a random
comparator — modelled by the resulting permutation `shuffled` of
`getReadableTemplates` — and slice the first `min(count, length)`. -/
def getRandomTemplatesUtils (shuffled : List MarpTemplate) (count : Int) : List MarpTemplate :=
  jsSliceToEnd (min count (shuffled.length : Int)) shuffled

/-! ## Helper lemmas for the normalization theorems -/

theorem isPrefixOf_trans {l1 l2 l3 : List Char} (h1 : l1.isPrefixOf l2 = true)
    (h2 : l2.isPrefixOf l3 = true) : l1.isPrefixOf l3 = true := by
  rw [ List.isPrefixOf_iff_prefix] at *
  exact h1.trans h2

theorem backtickFence_isPrefixOf_markdownFence :
    ("```".data).isPrefixOf ("```markdown".data) = true := by decide

theorem normalizeLead_eq_self_of_no_fence {s : List Char}
    (h : ("```".data).isPrefixOf (jsTrim s) = false) : normalizeLead s = s := by
  unfold normalizeLead
  have h1 : ("```markdown".data).isPrefixOf (jsTrim s) = false := by
    cases hb : ("```markdown".data).isPrefixOf (jsTrim s) with
    | false => rfl
    | true =>
      have := isPrefixOf_trans backtickFence_isPrefixOf_markdownFence hb
      rw [this] at h
      cases h
  rw [h1, h]
  simp

theorem normalizeTrail_eq_self_of_no_fence {s : List Char}
    (h : ("```".data).isSuffixOf (jsTrim s) = false) : normalizeTrail s = s := by
  unfold normalizeTrail
  rw [h]
  simp

/-! ## Theorems for the claims -/

/-- C10: the content-hash function used for cache addressing is not
injective: `"Aa"` and `"BB"` are distinct code strings with the same
`generateHash` value, so identical hashes do not imply identical code
bodies. -/
theorem c10_hash_collision :
    "Aa".data ≠ "BB".data ∧ generateHash ("Aa".data) = generateHash ("BB".data) :=
  ⟨by decide, by decide⟩

/-- C8: the normalization pass strips a leading ```` ```markdown ````
wrapper (`"```markdown\n# Title\nBody\n```"` normalizes to exactly
`"# Title\nBody"`), strips a bare leading ```` ``` ```` wrapper, and the
leading-strip step never touches a string whose first fence opens a
statistical-code block (trimmed text starting with `` ```{ ``). -/
theorem c8_fence_stripping :
    normalizeOutline ("```markdown\n# Title\nBody\n```".data) = ("# Title\nBody".data) ∧
    normalizeOutline ("```\nX\n```".data) = ("X".data) ∧
    ∀ s : List Char, ("```\x7b".data).isPrefixOf (jsTrim s) = true → normalizeLead s = s := by
  refine ⟨by decide, by decide, ?_⟩
  intro s h
  unfold normalizeLead
  have h1 : ("```markdown".data).isPrefixOf (jsTrim s) = false := by
    cases hb : ("```markdown".data).isPrefixOf (jsTrim s) with
    | false => rfl
    | true =>
      exfalso
      rw [ List.isPrefixOf_iff_prefix] at h hb
      have hle : ("```\x7b".data).length ≤ ("```markdown".data).length := by decide
      have hpre := List.prefix_of_prefix_length_le h hb hle
      rw [← List.isPrefixOf_iff_prefix] at hpre
      exact absurd hpre (by decide)
  rw [h1, h]
  simp

/-- C8 witness: the universal part of `c8_fence_stripping` applied to the
concrete statistical-code block `"```\x7br\x7d\nplot(1)\n```"`. -/
theorem c8_fence_stripping_witness :
    ("```\x7b".data).isPrefixOf (jsTrim ("```\x7br\x7d\nplot(1)\n```".data)) = true ∧
    normalizeLead ("```\x7br\x7d\nplot(1)\n```".data) = ("```\x7br\x7d\nplot(1)\n```".data) :=
  ⟨by decide, c8_fence_stripping.2.2 _ (by decide)⟩

/-- C2 counterexample: normalization is not idempotent.  On the raw model
output `"a\n```\n```"` the first pass strips only the last trailing fence,
producing `"a\n```"`, and a second pass strips again, producing `"a"`. -/
theorem c2_normalize_not_idempotent :
    normalizeOutline (normalizeOutline ("a\n```\n```".data)) ≠
      normalizeOutline ("a\n```\n```".data) ∧
    normalizeOutline ("a\n```\n```".data) = ("a\n```".data) ∧
    normalizeOutline ("a\n```".data) = ("a".data) :=
  ⟨by decide, by decide, by decide⟩

/-- C2 (amended): the normalization pass always returns a trimmed string,
and re-running it is a no-op on every outline whose normalized form no
longer starts with a fence and no longer ends with a fence; it is not
idempotent in general because each run strips at most one leading and one
trailing fence (`c2_normalize_not_idempotent`). -/
theorem c2_normalize_conditionally_idempotent (s : List Char)
    (h1 : ("```".data).isPrefixOf (jsTrim (normalizeOutline s)) = false)
    (h2 : ("```".data).isSuffixOf (jsTrim (normalizeOutline s)) = false) :
    jsTrim (normalizeOutline s) = normalizeOutline s ∧
    normalizeOutline (normalizeOutline s) = normalizeOutline s := by
  have htrim : jsTrim (normalizeOutline s) = normalizeOutline s := by
    unfold normalizeOutline
    exact jsTrim_idem _
  refine ⟨htrim, ?_⟩
  conv_lhs => rw [normalizeOutline, normalizeLead_eq_self_of_no_fence h1,
    normalizeTrail_eq_self_of_no_fence h2]
  exact htrim

/-- C2 witness: `c2_normalize_conditionally_idempotent` applied to the
already-clean outline `"# Title\nBody"`. -/
theorem c2_normalize_conditionally_idempotent_witness :
    (("```".data).isPrefixOf (jsTrim (normalizeOutline ("# Title\nBody".data))) = false ∧
     ("```".data).isSuffixOf (jsTrim (normalizeOutline ("# Title\nBody".data))) = false) ∧
    normalizeOutline (normalizeOutline ("# Title\nBody".data)) =
      normalizeOutline ("# Title\nBody".data) :=
  ⟨⟨by decide, by decide⟩,
    (c2_normalize_conditionally_idempotent ("# Title\nBody".data) (by decide) (by decide)).2⟩

/-- C6 counterexample: calling `generateOutline` on an empty research
text does fail fast with the typed error and without issuing any query, but
the previously generated outline is *not* left untouched: the function
clears `presentationOutline` to the empty string before checking the
precondition. -/
theorem c6_previous_outline_cleared :
    (generateOutlineModel none
      { researchResults := []
        presentationOutline := "# Old outline".data
        outlineHistory := ["# Old outline".data]
        error := none
        isOutlineComplete := true
        isGeneratingOutline := false }).1.presentationOutline = ([] : List Char) ∧
    "# Old outline".data ≠ ([] : List Char) ∧
    (generateOutlineModel none
      { researchResults := []
        presentationOutline := "# Old outline".data
        outlineHistory := ["# Old outline".data]
        error := none
        isOutlineComplete := true
        isGeneratingOutline := false }).2 = false :=
  ⟨by decide, by decide, by decide⟩

/-- C6 (amended): when the source research text is empty,
`generateOutline` returns with the typed error set and without issuing any
query, and the outline history is untouched — but the previously generated
`presentationOutline` value is cleared to the empty string rather than left
unchanged. -/
theorem c6_empty_source_fails_fast (st : ResearchState) (q : Option (List Char))
    (h : st.researchResults = []) :
    (generateOutlineModel q st).2 = false ∧
    (generateOutlineModel q st).1.error =
      some ("No research results available to generate an outline".data) ∧
    (generateOutlineModel q st).1.presentationOutline = ([] : List Char) ∧
    (generateOutlineModel q st).1.outlineHistory = st.outlineHistory ∧
    (generateOutlineModel q st).1.isGeneratingOutline = false := by
  simp [generateOutlineModel, h]

/-- C6 witness: `c6_empty_source_fails_fast` on a concrete state with an
empty research text and a previously generated outline. -/
theorem c6_empty_source_fails_fast_witness :
    (({ researchResults := []
        presentationOutline := "# Old outline".data
        outlineHistory := ["# Old outline".data]
        error := none
        isOutlineComplete := true
        isGeneratingOutline := false } : ResearchState).researchResults = ([] : List Char)) ∧
    (generateOutlineModel (some ("ignored".data))
      { researchResults := []
        presentationOutline := "# Old outline".data
        outlineHistory := ["# Old outline".data]
        error := none
        isOutlineComplete := true
        isGeneratingOutline := false }).2 = false ∧
    (generateOutlineModel (some ("ignored".data))
      { researchResults := []
        presentationOutline := "# Old outline".data
        outlineHistory := ["# Old outline".data]
        error := none
        isOutlineComplete := true
        isGeneratingOutline := false }).1.error =
      some ("No research results available to generate an outline".data) :=
  ⟨by decide,
    (c6_empty_source_fails_fast _ _ (by decide)).1,
    (c6_empty_source_fails_fast _ _ (by decide)).2.1⟩

/-- C4: the claim that `put` never double-counts an already-present hash
is right about the intent and wrong about the code: storing the same hash
twice refreshes the record (id and timestamp) but adds the payload size to
`totalSize` a second time without subtracting the overwritten record's
size, so the recorded total (200) is twice the actual content held for that
hash (a single 100-byte record). -/
theorem c4_double_put_double_counts :
    (storeContent ("i2".data) 2 ("h".data) 100
      (storeContent ("i1".data) 1 ("h".data) 100 ⟨[], 0⟩)).totalSize = 200 ∧
    (storeContent ("i2".data) 2 ("h".data) 100
      (storeContent ("i1".data) 1 ("h".data) 100 ⟨[], 0⟩)).items =
      [{ id := "i2".data, hash := "h".data, timestamp := 2, size := 100 }] ∧
    sizeSum (storeContent ("i2".data) 2 ("h".data) 100
      (storeContent ("i1".data) 1 ("h".data) 100 ⟨[], 0⟩)).items = 100 :=
  ⟨by decide, by decide, by decide⟩

/-! ## Helper lemmas for the streaming theorems -/

theorem processStreamLine_eq (parse : List Char → Option (List Char))
    (st : StreamAcc) (line : List Char) :
    processStreamLine parse st line =
      { full := st.full ++ lineDelta parse line
        emitted := st.emitted ++
          if lineDelta parse line = [] then [] else [lineDelta parse line] } := by
  unfold processStreamLine lineDelta
  by_cases hp : ("data: ".data).isPrefixOf line
  · simp only [hp, if_true]
    by_cases hd : line.drop 6 = "[DONE]".data
    · simp [hd]
    · simp only [hd, if_false]
      by_cases ht : jsTrim (line.drop 6) ≠ []
      · rw [if_pos ht, if_pos ht]
        cases hpar : parse (line.drop 6) with
        | none => simp
        | some content =>
          by_cases hc : content ≠ []
          · simp [hc]
          · simp only [not_not] at hc
            simp [hc]
      · simp [ht]
  · simp [hp]

theorem foldl_processStreamLine (parse : List Char → Option (List Char))
    (st : StreamAcc) (ls : List (List Char)) :
    ls.foldl (processStreamLine parse) st =
      { full := st.full ++ (ls.map (lineDelta parse)).flatten
        emitted := st.emitted ++ (ls.map (lineDelta parse)).filter (· ≠ []) } := by
  induction ls generalizing st with
  | nil => simp
  | cons l rest ih =>
    rw [List.foldl_cons, processStreamLine_eq, ih]
    by_cases hl : lineDelta parse l = []
    · simp [hl]
    · simp [hl, List.filter_cons]

theorem streamRun_eq_foldl (parse : List Char → Option (List Char))
    (chunks : List (List Char)) :
    streamRun parse chunks =
      (chunks.flatMap chunkLines).foldl (processStreamLine parse)
        { full := [], emitted := [] } := by
  unfold streamRun
  generalize hinit : ({ full := [], emitted := [] } : StreamAcc) = init
  clear hinit
  induction chunks generalizing init with
  | nil => simp
  | cons c rest ih =>
    rw [List.foldl_cons, List.flatMap_cons, List.foldl_append, ih]

/-- C3 counterexample: a stream whose frames are a well-formed content
frame `"A"`, the `[DONE]` sentinel, and a further well-formed content frame
`"B"` yields the accumulated string `"AB"`, and `onChunk` is invoked with
`"B"` after the sentinel: the code handles `[DONE]` with `continue`, not by
terminating the stream, so the returned string is not the concatenation of
the deltas preceding the first `[DONE]`. -/
theorem c3_done_frame_does_not_terminate :
    streamRun parseFrame
      [("data: \x7b\"choices\":[\x7b\"delta\":\x7b\"content\":\"A\"\x7d\x7d]\x7d\ndata: [DONE]\ndata: \x7b\"choices\":[\x7b\"delta\":\x7b\"content\":\"B\"\x7d\x7d]\x7d".data)]
      = { full := "AB".data, emitted := ["A".data, "B".data] } ∧
    parseFrame ("\x7b\"choices\":[\x7b\"delta\":\x7b\"content\":\"B\"\x7d\x7d]\x7d".data)
      = some ("B".data) ∧
    "AB".data ≠ "A".data ∧
    ["A".data, "B".data] ≠ ["A".data] :=
  ⟨by decide, by decide, by decide, by decide⟩

/-- C3 (amended): a `[DONE]` frame is skipped — it contributes no chunk
and nothing to the accumulator — but it does not terminate processing: for
every frame parser and every chunk sequence, the returned string is the
concatenation of the content deltas of *all* well-formed frames of the
stream, whether they precede or follow a `[DONE]` frame, and `onChunk`
receives exactly the nonempty deltas in arrival order. -/
theorem c3_stream_accumulates_all_frames (parse : List Char → Option (List Char))
    (chunks : List (List Char)) :
    (streamRun parse chunks).full =
      ((chunks.flatMap chunkLines).map (lineDelta parse)).flatten ∧
    (streamRun parse chunks).emitted =
      ((chunks.flatMap chunkLines).map (lineDelta parse)).filter (· ≠ []) ∧
    ∀ line : List Char, line.drop 6 = "[DONE]".data → lineDelta parse line = [] := by
  refine ⟨?_, ?_, ?_⟩
  · rw [streamRun_eq_foldl, foldl_processStreamLine]
    simp
  · rw [streamRun_eq_foldl, foldl_processStreamLine]
    simp
  · intro line hd
    unfold lineDelta
    by_cases hp : ("data: ".data).isPrefixOf line
    · simp [hp, hd]
    · simp [hp]

/-! ## Helper lemmas for the cache theorems -/

theorem sizeSum_perm {l1 l2 : List IndexItem} (h : l1.Perm l2) :
    sizeSum l1 = sizeSum l2 :=
  List.Perm.sum_eq (h.map _)

theorem sizeSum_nonneg (l : List IndexItem) : 0 ≤ sizeSum l := by
  apply List.sum_nonneg
  intro x hx
  obtain ⟨it, _, rfl⟩ := List.mem_map.mp hx
  exact Int.natCast_nonneg _

theorem sizeSum_cons (it : IndexItem) (l : List IndexItem) :
    sizeSum (it :: l) = it.size + sizeSum l := by
  simp [sizeSum]

theorem evict_step {idx : StorageIndex} {oldest : IndexItem} {rest : List IndexItem}
    (hperm : idx.items.Perm (oldest :: rest))
    (hcons : idx.totalSize = sizeSum idx.items)
    (hnd : (idx.items.map IndexItem.hash).Nodup) :
    (deleteItem oldest.hash idx.items).Perm rest ∧
    idx.totalSize - oldest.size = sizeSum (deleteItem oldest.hash idx.items) ∧
    ((deleteItem oldest.hash idx.items).map IndexItem.hash).Nodup := by
  have hmapnd : ((oldest :: rest).map IndexItem.hash).Nodup :=
    ((hperm.map IndexItem.hash).nodup_iff).mp hnd
  have hnotin : oldest.hash ∉ rest.map IndexItem.hash := by
    rw [List.map_cons, List.nodup_cons] at hmapnd
    exact hmapnd.1
  have hfilter_rest : rest.filter (fun it => it.hash ≠ oldest.hash) = rest := by
    apply List.filter_eq_self.mpr
    intro it hit
    have hne : it.hash ≠ oldest.hash := by
      intro hEq
      exact hnotin (hEq ▸ List.mem_map_of_mem IndexItem.hash hit)
    exact decide_eq_true hne
  have hperm_del : (deleteItem oldest.hash idx.items).Perm rest := by
    unfold deleteItem
    have h1 := hperm.filter (fun it => decide (it.hash ≠ oldest.hash))
    have h2 : (oldest :: rest).filter (fun it => decide (it.hash ≠ oldest.hash)) = rest := by
      rw [List.filter_cons, if_neg (by simp), hfilter_rest]
    rw [h2] at h1
    exact h1
  refine ⟨hperm_del, ?_, ?_⟩
  · have h3 : sizeSum idx.items = oldest.size + sizeSum rest := by
      rw [sizeSum_perm hperm, sizeSum_cons]
    rw [hcons, h3, sizeSum_perm hperm_del]
    ring
  · have hsub := (List.filter_sublist (l := idx.items)
      (p := fun it => decide (it.hash ≠ oldest.hash))).map IndexItem.hash
    exact hsub.nodup hnd

theorem evictWhile_fits_or_empty (size : Nat) (cand : List IndexItem) :
    ∀ (idx : StorageIndex), idx.items.Perm cand →
      idx.totalSize = sizeSum idx.items →
      (idx.items.map IndexItem.hash).Nodup →
      (evictWhile size cand idx).totalSize + size ≤ MAX_CACHE_SIZE ∨
        ((evictWhile size cand idx).items = [] ∧ (evictWhile size cand idx).totalSize = 0) := by
  induction cand with
  | nil =>
    intro idx hperm hcons _
    right
    have hnil : idx.items = [] := hperm.eq_nil
    refine ⟨by simpa [evictWhile], ?_⟩
    have : sizeSum idx.items = 0 := by rw [hnil]; simp [sizeSum]
    simpa [evictWhile, hcons]
  | cons oldest rest ih =>
    intro idx hperm hcons hnd
    by_cases hcond : idx.totalSize + size > MAX_CACHE_SIZE
    · obtain ⟨h1, h2, h3⟩ := evict_step hperm hcons hnd
      have := ih { items := deleteItem oldest.hash idx.items
                   totalSize := idx.totalSize - oldest.size } h1 h2 h3
      simpa [evictWhile, if_pos hcond] using this
    · left
      simp only [evictWhile, if_neg hcond]
      omega

theorem evictWhile_drain (size : Nat) (hbig : MAX_CACHE_SIZE < (size : Int))
    (cand : List IndexItem) :
    ∀ (idx : StorageIndex), idx.items.Perm cand →
      idx.totalSize = sizeSum idx.items →
      (idx.items.map IndexItem.hash).Nodup →
      (evictWhile size cand idx).items = [] ∧ (evictWhile size cand idx).totalSize = 0 := by
  induction cand with
  | nil =>
    intro idx hperm hcons _
    have hnil : idx.items = [] := hperm.eq_nil
    refine ⟨by simpa [evictWhile], ?_⟩
    have : sizeSum idx.items = 0 := by rw [hnil]; simp [sizeSum]
    simpa [evictWhile, hcons]
  | cons oldest rest ih =>
    intro idx hperm hcons hnd
    have hpos : 0 ≤ idx.totalSize := by
      rw [hcons]
      exact sizeSum_nonneg _
    have hcond : idx.totalSize + size > MAX_CACHE_SIZE := by omega
    obtain ⟨h1, h2, h3⟩ := evict_step hperm hcons hnd
    have := ih { items := deleteItem oldest.hash idx.items
                 totalSize := idx.totalSize - oldest.size } h1 h2 h3
    simpa [evictWhile, if_pos hcond] using this

/-- C9: an artifact whose payload alone exceeds `MAX_CACHE_SIZE` is not
rejected: starting from any well-formed cache index, `storeContent` evicts
every existing entry, stores the oversized artifact as the only record, and
leaves the recorded total equal to the artifact size, strictly above
`MAX_CACHE_SIZE` (the admit-and-exceed policy). -/
theorem c9_oversized_artifact_admitted (idx : StorageIndex) (id : List Char)
    (now : Nat) (hash : List Char) (size : Nat) (hwf : WellFormedIndex idx)
    (hbig : MAX_CACHE_SIZE < (size : Int)) :
    (storeContent id now hash size idx).items =
      [{ id := id, hash := hash, timestamp := now, size := size }] ∧
    (storeContent id now hash size idx).totalSize = (size : Int) ∧
    MAX_CACHE_SIZE < (storeContent id now hash size idx).totalSize := by
  obtain ⟨hcons, hnd⟩ := hwf
  have hperm : idx.items.Perm (sortByTimestamp idx.items) :=
    (List.perm_insertionSort tsLE idx.items).symm
  obtain ⟨hitems, htot⟩ :=
    evictWhile_drain size hbig (sortByTimestamp idx.items) idx hperm hcons hnd
  have hnn : 0 ≤ idx.totalSize := hcons ▸ sizeSum_nonneg idx.items
  have hcond : idx.totalSize + size > MAX_CACHE_SIZE := by omega
  unfold storeContent
  rw [if_pos hcond]
  refine ⟨?_, ?_, ?_⟩
  · simp only [hitems]
    rfl
  · simp only [htot]
    ring
  · simp only [htot]
    omega

/-- C9 witness: `c9_oversized_artifact_admitted` on a one-entry cache
receiving a `MAX_CACHE_SIZE + 1`-byte artifact. -/
theorem c9_oversized_artifact_admitted_witness :
    WellFormedIndex
      { items := [{ id := "i0".data, hash := "h0".data, timestamp := 1, size := 10 }]
        totalSize := 10 } ∧
    MAX_CACHE_SIZE < ((5242881 : Nat) : Int) ∧
    (storeContent ("i1".data) 2 ("h1".data) 5242881
      { items := [{ id := "i0".data, hash := "h0".data, timestamp := 1, size := 10 }]
        totalSize := 10 }).items =
      [{ id := "i1".data, hash := "h1".data, timestamp := 2, size := 5242881 }] ∧
    MAX_CACHE_SIZE < (storeContent ("i1".data) 2 ("h1".data) 5242881
      { items := [{ id := "i0".data, hash := "h0".data, timestamp := 1, size := 10 }]
        totalSize := 10 }).totalSize :=
  ⟨⟨by decide, by decide⟩, by decide,
    (c9_oversized_artifact_admitted _ _ _ _ _ ⟨by decide, by decide⟩ (by decide)).1,
    (c9_oversized_artifact_admitted _ _ _ _ _ ⟨by decide, by decide⟩ (by decide)).2.2⟩

/-- C5 counterexample: the invariant `totalSizeBytes ≤ MAX_CACHE_SIZE`
does not hold across every put: storing a single artifact of
`MAX_CACHE_SIZE + 1` bytes into an empty cache leaves the recorded total
above the bound. -/
theorem c5_total_size_bound_violated :
    MAX_CACHE_SIZE <
      (storeContent ("i1".data) 0 ("h".data) 5242881 ⟨[], 0⟩).totalSize := by
  decide

/-- C5 (amended): for every put of an artifact that fits the cache on
its own (`size ≤ MAX_CACHE_SIZE`) from a well-formed index, the recorded
total stays within `MAX_CACHE_SIZE`; eviction candidates are processed in
ascending order of last-access timestamp; and in the spec's scenario an
entry whose timestamp was refreshed by a `get` survives the eviction forced
by a later insert while the older, untouched entry is evicted first.  (For
an artifact larger than the whole cache the bound fails,
`c5_total_size_bound_violated`.) -/
theorem c5_eviction_policy :
    (∀ (idx : StorageIndex) (id : List Char) (now : Nat) (hash : List Char)
        (size : Nat), WellFormedIndex idx → (size : Int) ≤ MAX_CACHE_SIZE →
        (storeContent id now hash size idx).totalSize ≤ MAX_CACHE_SIZE) ∧
    (∀ items : List IndexItem, List.Sorted tsLE (sortByTimestamp items)) ∧
    ((storeContent ("c".data) 4 ("hc".data) 1000000
        (getContentTouch 3 ("ha".data)
          (storeContent ("b".data) 2 ("hb".data) 3000000
            (storeContent ("a".data) 1 ("ha".data) 2000000 ⟨[], 0⟩)))).items.map
        IndexItem.hash = ["ha".data, "hc".data] ∧
      (storeContent ("c".data) 4 ("hc".data) 1000000
        (getContentTouch 3 ("ha".data)
          (storeContent ("b".data) 2 ("hb".data) 3000000
            (storeContent ("a".data) 1 ("ha".data) 2000000 ⟨[], 0⟩)))).totalSize
        = 3000000) := by
  refine ⟨?_, ?_, by decide, by decide⟩
  · intro idx id now hash size hwf hfit
    obtain ⟨hcons, hnd⟩ := hwf
    unfold storeContent
    by_cases hcond : idx.totalSize + size > MAX_CACHE_SIZE
    · rw [if_pos hcond]
      have hperm : idx.items.Perm (sortByTimestamp idx.items) :=
        (List.perm_insertionSort tsLE idx.items).symm
      rcases evictWhile_fits_or_empty size (sortByTimestamp idx.items) idx hperm hcons hnd with
        hfits | ⟨_, hzero⟩
      · simpa using hfits
      · simp only [hzero]
        omega
    · rw [if_neg hcond]
      show idx.totalSize + (size : Int) ≤ MAX_CACHE_SIZE
      omega
  · intro items
    exact List.sorted_insertionSort tsLE items

/-- C5 witness: the universally quantified bound of `c5_eviction_policy`
applied to a concrete well-formed one-entry index and a fitting artifact. -/
theorem c5_eviction_policy_witness :
    WellFormedIndex
      { items := [{ id := "i0".data, hash := "h0".data, timestamp := 1, size := 4000000 }]
        totalSize := 4000000 } ∧
    ((2000000 : Nat) : Int) ≤ MAX_CACHE_SIZE ∧
    (storeContent ("i1".data) 2 ("h1".data) 2000000
      { items := [{ id := "i0".data, hash := "h0".data, timestamp := 1, size := 4000000 }]
        totalSize := 4000000 }).totalSize ≤ MAX_CACHE_SIZE :=
  ⟨⟨by decide, by decide⟩, by decide,
    c5_eviction_policy.1 _ _ _ _ _ ⟨by decide, by decide⟩ (by decide)⟩

/-! ## Helper lemmas for the compilation-stage theorem -/

/-- The backtick character, obtained from a string literal. -/
def btick : Char := "`".data.headD ' '

theorem dropWhile_append_cons (p : Char → Bool) (c : Char) (r : List Char)
    (hc : p c = false) :
    ∀ a : List Char, ∃ a', List.dropWhile p (a ++ c :: r) = a' ++ c :: r
  | [] => ⟨[], by rw [List.nil_append, List.dropWhile_cons, hc]; simp⟩
  | x :: a => by
    rw [List.cons_append, List.dropWhile_cons]
    by_cases hx : p x = true
    · rw [if_pos hx]
      exact dropWhile_append_cons p c r hc a
    · rw [if_neg hx]
      exact ⟨x :: a, rfl⟩

theorem jsTrim_keeps_infix {s a b t : List Char} {c0 cl : Char} {r0 rl : List Char}
    (hs : s = a ++ t ++ b)
    (hcons : t = c0 :: r0) (hc0 : isJsWs c0 = false)
    (hconc : t = rl ++ [cl]) (hcl : isJsWs cl = false) :
    ∃ a' b', jsTrim s = a' ++ t ++ b' := by
  obtain ⟨a', ha'⟩ := dropWhile_append_cons isJsWs c0 (r0 ++ b) hc0 a
  have hstep1 : s.dropWhile isJsWs = a' ++ t ++ b := by
    rw [hs, hcons]
    simpa [List.append_assoc] using ha'
  obtain ⟨b'', hb''⟩ := dropWhile_append_cons isJsWs cl (rl.reverse ++ a'.reverse) hcl b.reverse
  refine ⟨a', b''.reverse, ?_⟩
  rw [jsTrim, hstep1, List.rdropWhile]
  have hrev : (a' ++ t ++ b).reverse = b.reverse ++ cl :: (rl.reverse ++ a'.reverse) := by
    rw [hconc]
    simp [List.reverse_append]
  rw [hrev, hb'']
  rw [hconc]
  simp [List.reverse_append, List.append_assoc]

theorem firstIdxOf_drop {pat : List Char} :
    ∀ {u : List Char} {m : Nat}, firstIdxOf pat u = some m →
      pat.isPrefixOf (u.drop m) = true := by
  intro u
  induction u with
  | nil =>
    intro m h
    unfold firstIdxOf at h
    by_cases hp : pat.isEmpty
    · have : pat = [] := List.isEmpty_iff.mp hp
      subst this
      simp
    · rw [if_neg hp] at h
      cases h
  | cons c rest ih =>
    intro m h
    unfold firstIdxOf at h
    by_cases hp : pat.isPrefixOf (c :: rest) = true
    · rw [if_pos hp] at h
      cases h
      simpa using hp
    · rw [if_neg hp] at h
      obtain ⟨m', hm', rfl⟩ := Option.map_eq_some'.mp h
      simpa using ih hm'

theorem matchRChunkAt_eq_some {t : List Char} {n : Nat} {code : List Char}
    (h : matchRChunkAt t = some (n, code)) :
    ∃ k m, ("```\x7br".data).isPrefixOf t = true ∧
      scanToBraceNL (t.drop 5) = some k ∧
      firstIdxOf ("\n```".data) (t.drop (7 + k)) = some m ∧
      n = 11 + k + m ∧ code = (t.drop (7 + k)).take m := by
  unfold matchRChunkAt at h
  by_cases hp : ("```\x7br".data).isPrefixOf t = true
  · rw [if_pos hp] at h
    rcases hscan : scanToBraceNL (t.drop 5) with _ | k <;> rw [hscan] at h
    · cases h
    · rcases hidx : firstIdxOf ("\n```".data) (t.drop (7 + k)) with _ | m <;>
        simp only [hidx] at h
      · cases h
      · injection h with h2
        injection h2 with hn hc
        subst hn
        subst hc
        exact ⟨k, m, hp, rfl, hidx, rfl, rfl⟩
  · rw [if_neg hp] at h
    cases h

theorem matchRChunkAt_head {t : List Char} {n : Nat} {code : List Char}
    (h : matchRChunkAt t = some (n, code)) :
    ∃ r0, t.take n = btick :: r0 := by
  obtain ⟨k, m, hp, _, _, rfl, _⟩ := matchRChunkAt_eq_some h
  obtain ⟨z, hz⟩ := List.isPrefixOf_iff_prefix.mp hp
  have ht : t = btick :: ("``\x7br".data ++ z) := by
    rw [← hz]
    rfl
  have harith : 11 + k + m = (10 + k + m) + 1 := by omega
  refine ⟨("``\x7br".data ++ z).take (10 + k + m), ?_⟩
  rw [ht, harith, List.take_succ_cons]

theorem matchRChunkAt_last {t : List Char} {n : Nat} {code : List Char}
    (h : matchRChunkAt t = some (n, code)) :
    ∃ rl, t.take n = rl ++ [btick] := by
  obtain ⟨k, m, hp, hscan, hidx, rfl, hcode⟩ := matchRChunkAt_eq_some h
  have hpre := firstIdxOf_drop hidx
  obtain ⟨z, hz⟩ := List.isPrefixOf_iff_prefix.mp hpre
  have hsplit : t.take (11 + k + m) =
      t.take (7 + k) ++ ((t.drop (7 + k)).take m) ++
        (((t.drop (7 + k)).drop m).take 4) := by
    have h1 : t.take (7 + k + (m + 4)) =
        t.take (7 + k) ++ ((t.drop (7 + k)).take (m + 4)) := by
      rw [List.take_add]
    have h2 : (t.drop (7 + k)).take (m + 4) =
        ((t.drop (7 + k)).take m) ++ (((t.drop (7 + k)).drop m).take 4) := by
      rw [List.take_add]
    have harith : 11 + k + m = 7 + k + (m + 4) := by omega
    rw [harith, h1, h2, List.append_assoc]
  have htail : ((t.drop (7 + k)).drop m).take 4 = "\n```".data := by
    rw [← hz]
    rfl
  refine ⟨t.take (7 + k) ++ ((t.drop (7 + k)).take m) ++ "\n``".data, ?_⟩
  rw [hsplit, htail]
  simp only [List.append_assoc, List.cons_append, List.nil_append]
  rfl

theorem findRChunksF_spec (fuel : Nat) :
    ∀ l : List Char, ∀ fc ∈ findRChunksF fuel l,
      (∃ a b, l = a ++ fc.1 ++ b) ∧
      (∃ r0, fc.1 = btick :: r0) ∧ (∃ rl, fc.1 = rl ++ [btick]) := by
  induction fuel with
  | zero =>
    intro l fc hfc
    simp [findRChunksF] at hfc
  | succ fuel ih =>
    intro l fc hfc
    match l with
    | [] => simp [findRChunksF] at hfc
    | c :: rest =>
      rw [findRChunksF] at hfc
      rcases hm : matchRChunkAt (c :: rest) with _ | ⟨n, code⟩
      · rw [hm] at hfc
        obtain ⟨⟨a, b, hab⟩, hh, hl⟩ := ih rest fc hfc
        exact ⟨⟨c :: a, b, by rw [hab]; rfl⟩, hh, hl⟩
      · rw [hm] at hfc
        rcases List.mem_cons.mp hfc with rfl | hfc'
        · refine ⟨⟨[], (c :: rest).drop n, by simp⟩, ?_, ?_⟩
          · exact matchRChunkAt_head hm
          · exact matchRChunkAt_last hm
        · obtain ⟨⟨a, b, hab⟩, hh, hl⟩ := ih (rest.drop (n - 1)) fc hfc'
          refine ⟨⟨c :: rest.take (n - 1) ++ a, b, ?_⟩, hh, hl⟩
          have : rest = rest.take (n - 1) ++ rest.drop (n - 1) := by simp
          conv_lhs => rw [this, hab]
          simp [List.append_assoc]

/-- C1: a runtime error on any code block makes `processRMarkdownChunks`
throw, and `convertMarkdownToSlides` catches the throw and continues
compiling with the original (trimmed) markdown, so compilation completes
and every fenced R code block of the outline — in particular the failing
one — appears unchanged in the compiled document. -/
theorem c1_failed_execution_preserves_blocks
    (runtime : RChunkType → List Char → Except (List Char) (List Char))
    (markdown : List Char) (e : List Char)
    (herr : processRMarkdownChunks runtime markdown = Except.error e) :
    convertStageR runtime markdown = jsTrim markdown ∧
    ∀ fc ∈ findRChunks markdown,
      ∃ a b, convertStageR runtime markdown = a ++ fc.1 ++ b := by
  have hstage : convertStageR runtime markdown = jsTrim markdown := by
    unfold convertStageR
    by_cases hinc : jsIncludes markdown ("```\x7br".data) = true
    · rw [if_pos hinc, herr]
    · rw [if_neg hinc]
  refine ⟨hstage, ?_⟩
  intro fc hfc
  obtain ⟨⟨a, b, hab⟩, ⟨r0, hr0⟩, ⟨rl, hrl⟩⟩ :=
    findRChunksF_spec markdown.length markdown fc hfc
  obtain ⟨a', b', hjt⟩ := jsTrim_keeps_infix hab hr0 (by decide) hrl (by decide)
  exact ⟨a', b', by rw [hstage, hjt]⟩

/-- C1 witness: `c1_failed_execution_preserves_blocks` on a concrete
outline containing one R block and a runtime that rejects every execution
with a timeout. -/
theorem c1_failed_execution_preserves_blocks_witness :
    processRMarkdownChunks (fun _ _ => Except.error ("timeout".data))
      (" pre\n```\x7br\x7d\nplot(x)\n```\npost ".data) = Except.error ("timeout".data) ∧
    convertStageR (fun _ _ => Except.error ("timeout".data))
      (" pre\n```\x7br\x7d\nplot(x)\n```\npost ".data)
      = ("pre\n```\x7br\x7d\nplot(x)\n```\npost".data) :=
  ⟨rfl,
    by
      rw [(c1_failed_execution_preserves_blocks
        (fun _ _ => Except.error ("timeout".data))
        (" pre\n```\x7br\x7d\nplot(x)\n```\npost ".data) ("timeout".data) rfl).1]
      decide⟩

/-! ## Helper lemmas for the template-sampling theorems -/

theorem getD_cons_set_perm {α : Type} (d x : α) :
    ∀ (xs : List α) (m : Nat), m < xs.length →
      (xs.getD m d :: xs.set m x).Perm (x :: xs) := by
  intro xs
  induction xs with
  | nil =>
    intro m hm
    simp at hm
  | cons z zs ih =>
    intro m hm
    match m with
    | 0 =>
      rw [List.getD_cons_zero, List.set_cons_zero]
      exact List.Perm.swap x z zs
    | m' + 1 =>
      rw [List.getD_cons_succ, List.set_cons_succ]
      have h1 := ih m' (by simpa using hm)
      exact ((List.Perm.swap z (zs.getD m' d) (zs.set m' x)).trans
        (h1.cons z)).trans (List.Perm.swap x z zs)

theorem swapAt_perm :
    ∀ (l : List MarpTemplate) (i j : Nat), i < l.length → j < l.length →
      (swapAt l i j).Perm l
  | [], i, j, hi, _ => by simp at hi
  | x :: xs, 0, 0, _, _ => by
    unfold swapAt
    rw [List.getD_cons_zero, List.set_cons_zero, List.set_cons_zero]
  | x :: xs, 0, m + 1, _, hj => by
    unfold swapAt
    rw [List.getD_cons_zero, List.getD_cons_succ, List.set_cons_zero, List.set_cons_succ]
    exact getD_cons_set_perm default x xs m (by simpa using hj)
  | x :: xs, n + 1, 0, hi, _ => by
    unfold swapAt
    rw [List.getD_cons_zero, List.getD_cons_succ, List.set_cons_succ, List.set_cons_zero]
    exact getD_cons_set_perm default x xs n (by simpa using hi)
  | x :: xs, n + 1, m + 1, hi, hj => by
    unfold swapAt
    rw [List.getD_cons_succ, List.getD_cons_succ, List.set_cons_succ, List.set_cons_succ]
    exact (swapAt_perm xs n m (by simpa using hi) (by simpa using hj)).cons x

theorem swapAt_length (l : List MarpTemplate) (i j : Nat) :
    (swapAt l i j).length = l.length := by
  unfold swapAt
  rw [List.length_set, List.length_set]

theorem fisherYatesLoop_perm (rand : Nat → Nat) :
    ∀ (i : Nat) (l : List MarpTemplate), i < l.length →
      (fisherYatesLoop rand l i).Perm l
  | 0, l, _ => List.Perm.refl l
  | i + 1, l, h => by
    have hj : rand (i + 1) % (i + 2) < l.length := by
      have := Nat.mod_lt (rand (i + 1)) (y := i + 2) (by omega)
      omega
    have hswap := swapAt_perm l (i + 1) (rand (i + 1) % (i + 2)) h hj
    have hlen : (swapAt l (i + 1) (rand (i + 1) % (i + 2))).length = l.length :=
      swapAt_length l _ _
    have hrec := fisherYatesLoop_perm rand i
      (swapAt l (i + 1) (rand (i + 1) % (i + 2))) (by omega)
    show (fisherYatesLoop rand (swapAt l (i + 1) (rand (i + 1) % (i + 2))) i).Perm l
    exact hrec.trans hswap

/-- C7: the claim describes the registry revision of
`getRandomTemplates` correctly — empty for `count ≤ 0`, the whole catalog
exactly once each for `count ≥ registry size`, and `count` pairwise-distinct
registry templates for `0 < count < registry size` — but the
`utils/marpUtils.ts` revision violates it: for any shuffle outcome it
returns only the 3 contrast-filtered templates when `count = 100`, not the
7 registry templates (the repository's own test expects all 7). -/
theorem c7_sampling_without_replacement :
    (∀ (rand : Nat → Nat) (count : Int),
      (count ≤ 0 → getRandomTemplatesRegistry rand count = []) ∧
      ((TEMPLATES.length : Int) ≤ count →
        getRandomTemplatesRegistry rand count = TEMPLATES ∧ TEMPLATES.Nodup) ∧
      (0 < count → count < (TEMPLATES.length : Int) →
        ((getRandomTemplatesRegistry rand count).length : Int) = count ∧
        (getRandomTemplatesRegistry rand count).Nodup ∧
        ∀ t ∈ getRandomTemplatesRegistry rand count, t ∈ TEMPLATES)) ∧
    (∀ sh : List MarpTemplate, sh.Perm getReadableTemplates →
      getRandomTemplatesUtils sh 100 = sh ∧ sh.length = 3) ∧
    TEMPLATES.length = 7 := by
  have hlen7 : TEMPLATES.length = 7 := by decide
  have hlen7i : (TEMPLATES.length : Int) = 7 := by decide
  refine ⟨?_, ?_, hlen7⟩
  · intro rand count
    refine ⟨?_, ?_, ?_⟩
    · intro hle
      unfold getRandomTemplatesRegistry
      rw [if_pos hle]
    · intro hge
      unfold getRandomTemplatesRegistry
      rw [if_neg (by omega), if_pos (by omega)]
      exact ⟨rfl, by decide⟩
    · intro hpos hlt
      have hperm : (fisherYatesLoop rand TEMPLATES (TEMPLATES.length - 1)).Perm TEMPLATES :=
        fisherYatesLoop_perm rand (TEMPLATES.length - 1) TEMPLATES (by decide)
      have hresult : getRandomTemplatesRegistry rand count =
          (fisherYatesLoop rand TEMPLATES (TEMPLATES.length - 1)).take count.toNat := by
        unfold getRandomTemplatesRegistry
        rw [if_neg (by omega), if_neg (by omega)]
      refine ⟨?_, ?_, ?_⟩
      · rw [hresult, List.length_take, hperm.length_eq, hlen7]
        have h7 : count.toNat < 7 := by omega
        rw [Nat.min_def, if_pos (by omega)]
        omega
      · rw [hresult]
        exact (List.take_sublist _ _).nodup (hperm.nodup_iff.mpr (by decide))
      · intro t ht
        rw [hresult] at ht
        exact hperm.mem_iff.mp (List.take_subset _ _ ht)
  · intro sh hsh
    have hlen : sh.length = 3 := by rw [hsh.length_eq]; decide
    refine ⟨?_, hlen⟩
    unfold getRandomTemplatesUtils jsSliceToEnd
    rw [hlen]
    have hmin : min (100 : Int) ((3 : Nat) : Int) = 3 := by decide
    rw [hmin, if_neg (by omega)]
    exact List.take_of_length_le (by omega)

/-- C7 witness: `c7_sampling_without_replacement` at a concrete draw
function and counts on both revisions. -/
theorem c7_sampling_without_replacement_witness :
    ((-1 : Int) ≤ 0 ∧ getRandomTemplatesRegistry (fun i => i * 3 + 1) (-1) = []) ∧
    ((TEMPLATES.length : Int) ≤ 100 ∧
      getRandomTemplatesRegistry (fun i => i * 3 + 1) 100 = TEMPLATES) ∧
    ((0 : Int) < 3 ∧ (3 : Int) < (TEMPLATES.length : Int) ∧
      ((getRandomTemplatesRegistry (fun i => i * 3 + 1) 3).length : Int) = 3) ∧
    (getReadableTemplates.Perm getReadableTemplates ∧
      getRandomTemplatesUtils getReadableTemplates 100 = getReadableTemplates ∧
      getReadableTemplates.length = 3) :=
  ⟨⟨by decide, (c7_sampling_without_replacement.1 (fun i => i * 3 + 1) (-1)).1 (by decide)⟩,
   ⟨by decide, ((c7_sampling_without_replacement.1 (fun i => i * 3 + 1) 100).2.1 (by decide)).1⟩,
   ⟨by decide, by decide,
     ((c7_sampling_without_replacement.1 (fun i => i * 3 + 1) 3).2.2 (by decide) (by decide)).1⟩,
   ⟨List.Perm.refl _,
     (c7_sampling_without_replacement.2.1 getReadableTemplates (List.Perm.refl _)).1,
     (c7_sampling_without_replacement.2.1 getReadableTemplates (List.Perm.refl _)).2⟩⟩

/-- C3 witness: the general accumulation law of
`c3_stream_accumulates_all_frames` evaluated on a concrete one-chunk stream,
and the `[DONE]` clause discharged at the concrete sentinel line. -/
theorem c3_stream_accumulates_all_frames_witness :
    (streamRun parseFrame ["data: [DONE]\n".data]).full =
      ((["data: [DONE]\n".data].flatMap chunkLines).map (lineDelta parseFrame)).flatten ∧
    ("data: [DONE]".data).drop 6 = "[DONE]".data ∧
    lineDelta parseFrame ("data: [DONE]".data) = [] :=
  ⟨(c3_stream_accumulates_all_frames parseFrame _).1,
   by decide,
   (c3_stream_accumulates_all_frames parseFrame ["data: [DONE]\n".data]).2.2 _ (by decide)⟩
